import Mathlib

set_option maxRecDepth 10000

/-!
Verification development for the receipt-extraction pipeline
(`app/parsing/currency_parser.py`, `app/parsing/extractors.py`,
`app/ocr/ocr_engine.py`, `app/config.py`).

Strings are modelled as `List Char`; Python floats are idealised as `ℚ`
(all amounts appearing on receipts are exactly representable); Python's
`datetime.date.today()` is passed explicitly as a `today : PyDate`
parameter.  Each definition mirrors one Python function; doc comments
name the source symbol.
-/

/-- Python word character for the regex class `\w` (ASCII range, which is
all that occurs in this pipeline). -/
def isWord (c : Char) : Bool := c.isAlphanum || c = '_'

/-- Python whitespace for `\s` / `str.strip` (ASCII forms). -/
def isWs (c : Char) : Bool := c.isWhitespace

/-- `str.strip()` : drop whitespace from both ends. -/
def trimList (l : List Char) : List Char :=
  ((l.dropWhile isWs).reverse.dropWhile isWs).reverse

/-- `str.lower()` (ASCII). -/
def lowerList (l : List Char) : List Char := l.map Char.toLower

/-- `" ".join(texts)`. -/
def joinSpaces : List (List Char) → List Char
  | [] => []
  | [t] => t
  | t :: rest => t ++ ' ' :: joinSpaces rest

/-- List-prefix test (no regex involved; plain string comparison). -/
def startsWithL : List Char → List Char → Bool
  | [], _ => true
  | _ :: _, [] => false
  | a :: as, b :: bs => a = b && startsWithL as bs

/-- Python's substring containment `needle in hay`. -/
def containsSub (needle : List Char) : List Char → Bool
  | [] => startsWithL needle []
  | c :: rest => startsWithL needle (c :: rest) || containsSub needle rest

/-- Value of a digit string, `int("...")` on digits. -/
def digitsToNat (l : List Char) : ℕ :=
  l.foldl (fun a c => 10 * a + (c.toNat - 48)) 0

/-- `\s*` : drop a (maximal) whitespace run. -/
def wsDrop (l : List Char) : List Char := l.dropWhile isWs

/-- One attempt of the pattern `[Rr][Pp]\.?\s*` at the head of the list
(first entry of `CurrencyParser.CURRENCY_PREFIXES`).  Returns the
remainder after the match. -/
def tryRp : List Char → Option (List Char)
  | c1 :: c2 :: rest =>
    if (c1 = 'R' || c1 = 'r') && (c2 = 'P' || c2 = 'p') then
      some (match rest with
        | '.' :: r2 => wsDrop r2
        | r => wsDrop r)
    else none
  | _ => none

/-- One attempt of `[Ii][Dd][Rr]\s*` at the head of the list. -/
def tryIdr : List Char → Option (List Char)
  | c1 :: c2 :: c3 :: rest =>
    if (c1 = 'I' || c1 = 'i') && (c2 = 'D' || c2 = 'd') && (c3 = 'R' || c3 = 'r') then
      some (wsDrop rest)
    else none
  | _ => none

/-- One attempt of `\$\s*` at the head of the list. -/
def tryDollar : List Char → Option (List Char)
  | '$' :: rest => some (wsDrop rest)
  | _ => none

/-- One attempt of `[Uu][Ss][Dd]\s*` at the head of the list. -/
def tryUsd : List Char → Option (List Char)
  | c1 :: c2 :: c3 :: rest =>
    if (c1 = 'U' || c1 = 'u') && (c2 = 'S' || c2 = 's') && (c3 = 'D' || c3 = 'd') then
      some (wsDrop rest)
    else none
  | _ => none

/-- `re.sub(pattern, "", s)` : scan left to right, replacing each match of
`m` by the empty string.  Fuelled structural recursion; every matcher
consumes at least one character, so fuel `l.length` is exact. -/
def subPatF (m : List Char → Option (List Char)) : ℕ → List Char → List Char
  | 0, l => l
  | _ + 1, [] => []
  | f + 1, c :: rest =>
    match m (c :: rest) with
    | some rem => subPatF m f rem
    | none => c :: subPatF m f rest

/-- `re.sub(pattern, "", s)` with adequate fuel. -/
def subPat (m : List Char → Option (List Char)) (l : List Char) : List Char :=
  subPatF m l.length l

/-- The loop over `CurrencyParser.CURRENCY_PREFIXES` in
`CurrencyParser.parse` : the four `re.sub` substitutions in order. -/
def cleanCurrency (l : List Char) : List Char :=
  subPat tryUsd (subPat tryDollar (subPat tryIdr (subPat tryRp l)))

/-- Regex class `[\d.,\s]` of `CurrencyParser.NUMBER_PATTERN`. -/
def isSepD (c : Char) : Bool := c.isDigit || c = '.' || c = ',' || isWs c

/-- `CurrencyParser.NUMBER_PATTERN.match` : the Python regex
`^[^\d]*([\d.,\s]+)[^\d]*$` with backtracking resolved.  If the string
has a digit, the greedy leading `[^\d]*` stops at the first digit and
the captured group is the maximal `[\d.,\s]` run from there; the match
exists iff no digit follows that run.  If the string has no digit, the
group found by backtracking is the last `[\d.,\s]` character. -/
def numMatch (l : List Char) : Option (List Char) :=
  if l.any Char.isDigit then
    let rest := l.dropWhile (fun c => !c.isDigit)
    let run := rest.takeWhile isSepD
    if (rest.dropWhile isSepD).any Char.isDigit then none else some run
  else
    match l.reverse.find? isSepD with
    | some c => some [c]
    | none => none

/-- Python `float(s)` restricted to the strings this parser ever feeds
it (digits and dots only, after separator normalisation): defined iff
the string has at least one digit and at most one dot. -/
def pyFloat (l : List Char) : Option ℚ :=
  if l ≠ [] ∧ (∀ c ∈ l, c.isDigit = true ∨ c = '.') ∧
      l.count '.' ≤ 1 ∧ l.any Char.isDigit = true then
    let intPart := l.takeWhile (fun c => c ≠ '.')
    let fracPart := l.drop (intPart.length + 1)
    some ((digitsToNat intPart : ℚ) + (digitsToNat fracPart : ℚ) / (10 : ℚ) ^ fracPart.length)
  else none

/-- Python `str.rfind(c)` : index of the last occurrence, `-1` if absent. -/
def rfindIdx (c : Char) (l : List Char) : ℤ :=
  match l.reverse.findIdx? (fun x => x = c) with
  | some k => (l.length : ℤ) - 1 - (k : ℤ)
  | none => -1

/-- `CurrencyParser._parse_number_string` : separator disambiguation. -/
def parseNumberString (l0 : List Char) : Option ℚ :=
  let l := l0.filter (fun c => !isWs c)
  if l = [] then none
  else
    let dots := l.count '.'
    let commas := l.count ','
    if dots = 0 ∧ commas = 0 then pyFloat l
    else if dots = 0 ∧ commas = 1 then
      let after := l.drop (l.findIdx (fun c => c = ',') + 1)
      if after.length = 2 then pyFloat (l.map (fun c => if c = ',' then '.' else c))
      else if after.length = 3 then pyFloat (l.filter (fun c => c ≠ ','))
      else pyFloat (l.map (fun c => if c = ',' then '.' else c))
    else if dots = 1 ∧ commas = 0 then
      let after := l.drop (l.findIdx (fun c => c = '.') + 1)
      if after.length = 2 then pyFloat l
      else if after.length = 3 then pyFloat (l.filter (fun c => c ≠ '.'))
      else pyFloat l
    else if 1 ≤ dots ∧ 1 ≤ commas then
      if rfindIdx ',' l > rfindIdx '.' l then
        pyFloat ((l.filter (fun c => c ≠ '.')).map (fun c => if c = ',' then '.' else c))
      else
        pyFloat (l.filter (fun c => c ≠ ','))
    else if 1 < dots ∧ commas = 0 then pyFloat (l.filter (fun c => c ≠ '.'))
    else if dots = 0 ∧ 1 < commas then pyFloat (l.filter (fun c => c ≠ ','))
    else
      if rfindIdx ',' l > rfindIdx '.' l then
        pyFloat ((l.filter (fun c => c ≠ '.')).map (fun c => if c = ',' then '.' else c))
      else
        pyFloat (l.filter (fun c => c ≠ ','))

/-- `CurrencyParser.parse` on a string argument: returns
(value-or-absent, raw); the raw component is the stripped original. -/
def currencyParse (s : List Char) : Option ℚ × List Char :=
  if s = [] then (none, [])
  else
    let original := trimList s
    let cleaned := trimList (cleanCurrency original)
    if cleaned = [] then (none, original)
    else
      match numMatch cleaned with
      | none => (none, original)
      | some g => (parseNumberString (trimList g), original)

/-- `CurrencyParser.parse(None)` : the falsy branch returns `(None, "")`. -/
def currencyParseNone : Option ℚ × List Char := (none, [])

/-- One detection result (`app/ocr/ocr_engine.py`, class `OCRResult`),
after bbox normalisation: `text`, `confidence`, the quadrilateral
points, and the `line_index` assigned by the reading-order sort. -/
structure OCRResult where
  text : List Char
  confidence : ℚ
  bbox : List (ℚ × ℚ)
  line_index : ℕ
deriving DecidableEq

/-- `OCRResult.center_y` : mean of the bbox y coordinates (the
`ZeroDivisionError` guard yields `0.0` on an empty bbox). -/
def centerY (r : OCRResult) : ℚ :=
  if r.bbox = [] then 0 else (r.bbox.map Prod.snd).sum / (r.bbox.length : ℚ)

/-- `OCRResult.left_x` : minimum of the bbox x coordinates (`0.0` on an
empty bbox, from the exception guard). -/
def leftX (r : OCRResult) : ℚ :=
  match r.bbox with
  | [] => 0
  | p :: ps => (ps.map Prod.fst).foldl min p.1

/-- A Python `datetime.date` value (triple of year, month, day;
comparisons are lexicographic, as in CPython). -/
structure PyDate where
  year : ℤ
  month : ℤ
  day : ℤ
deriving DecidableEq

/-- `datetime.date` strict comparison `a < b`. -/
def dateLt (a b : PyDate) : Bool :=
  decide (a.year < b.year ∨ (a.year = b.year ∧
    (a.month < b.month ∨ (a.month = b.month ∧ a.day < b.day))))

/-- `datetime.date` comparison `a <= b`. -/
def dateLe (a b : PyDate) : Bool :=
  decide (a.year < b.year ∨ (a.year = b.year ∧
    (a.month < b.month ∨ (a.month = b.month ∧ a.day ≤ b.day))))

/-- Gregorian leap-year rule used by `datetime.date`. -/
def isLeapYear (y : ℤ) : Bool := decide (y % 4 = 0 ∧ (y % 100 ≠ 0 ∨ y % 400 = 0))

/-- Days in a month, as validated by the `datetime.date` constructor. -/
def daysInMonth (y m : ℤ) : ℤ :=
  if m = 2 then (if isLeapYear y then 29 else 28)
  else if m = 4 ∨ m = 6 ∨ m = 9 ∨ m = 11 then 30
  else 31

/-- `datetime.date(y, m, d)` with the surrounding `except ValueError`
of `DateExtractor._parse_date_match` : `none` models the raised-and-
caught `ValueError` for an out-of-range component. -/
def mkDate (y m d : ℤ) : Option PyDate :=
  if 1 ≤ y ∧ y ≤ 9999 ∧ 1 ≤ m ∧ m ≤ 12 ∧ 1 ≤ d ∧ d ≤ daysInMonth y m then
    some ⟨y, m, d⟩
  else none

/-- `DateExtractor._is_valid_date` : not in the future, not before
January 1 of `today.year - 5`. -/
def isValidDate (today d : PyDate) : Bool :=
  if dateLt today d then false
  else if dateLt d ⟨today.year - 5, 1, 1⟩ then false
  else true

/-- `ExtractionConfig.MONTH_MAP`. -/
def monthMap : List (List Char × ℤ) :=
  [("jan".toList, 1), ("january".toList, 1), ("januari".toList, 1),
   ("feb".toList, 2), ("february".toList, 2), ("februari".toList, 2),
   ("mar".toList, 3), ("march".toList, 3), ("maret".toList, 3),
   ("apr".toList, 4), ("april".toList, 4),
   ("may".toList, 5), ("mei".toList, 5),
   ("jun".toList, 6), ("june".toList, 6), ("juni".toList, 6),
   ("jul".toList, 7), ("july".toList, 7), ("juli".toList, 7),
   ("aug".toList, 8), ("august".toList, 8), ("agu".toList, 8), ("agustus".toList, 8),
   ("sep".toList, 9), ("september".toList, 9),
   ("oct".toList, 10), ("october".toList, 10), ("okt".toList, 10), ("oktober".toList, 10),
   ("nov".toList, 11), ("november".toList, 11),
   ("dec".toList, 12), ("december".toList, 12), ("des".toList, 12), ("desember".toList, 12)]

/-- `ExtractionConfig.MONTH_MAP.get(key)`. -/
def monthLookup (k : List Char) : Option ℤ :=
  (monthMap.find? (fun p => p.1 = k)).map (fun p => p.2)

/-- Take exactly `n` digits (`\d{n}` and the exact-count part of
`\d{1,2}` after greedy choice). -/
def takeDigitsN : ℕ → List Char → Option (List Char × List Char)
  | 0, l => some ([], l)
  | _ + 1, [] => none
  | n + 1, c :: rest =>
    if c.isDigit then
      match takeDigitsN n rest with
      | some (ds, r) => some (c :: ds, r)
      | none => none
    else none

/-- `\s+` : a nonempty maximal whitespace run. -/
def wsTake1 (l : List Char) : Option (List Char × List Char) :=
  let run := l.takeWhile isWs
  if run = [] then none else some (run, l.dropWhile isWs)

/-- `\w*` : a maximal (possibly empty) word-character run. -/
def wordTake (l : List Char) : List Char × List Char :=
  (l.takeWhile isWord, l.dropWhile isWord)

/-- The separator class `[/\-.]` of the numeric date patterns. -/
def isDateSep (c : Char) : Bool := c = '/' || c = '-' || c = '.'

/-- Whether an optional character is a word character (for `\b`). -/
def wordOpt : Option Char → Bool
  | some c => isWord c
  | none => false

/-- Body of date pattern 1 (`DD sep MM sep YYYY`) for one greedy choice
`k1`, `k2` of the two `\d{1,2}` lengths, including the trailing `\b`.
Returns (matched substring, groups). -/
def p1Try (k1 k2 : ℕ) (l : List Char) : Option (List Char × List (List Char)) :=
  match takeDigitsN k1 l with
  | none => none
  | some (d1, r1) =>
    match r1 with
    | [] => none
    | s1 :: r2 =>
      if isDateSep s1 then
        match takeDigitsN k2 r2 with
        | none => none
        | some (d2, r3) =>
          match r3 with
          | [] => none
          | s2 :: r4 =>
            if isDateSep s2 then
              match takeDigitsN 4 r4 with
              | none => none
              | some (y, r5) =>
                if wordOpt r5.head? then none
                else some (d1 ++ s1 :: d2 ++ s2 :: y, [d1, d2, y])
            else none
      else none

/-- Date pattern 1 at one position: leading `\b` then the greedy
backtracking order (2,2), (2,1), (1,2), (1,1) for the `\d{1,2}` pair. -/
def p1At (prev : Option Char) (l : List Char) : Option (List Char × List (List Char)) :=
  if wordOpt prev then none
  else
    match p1Try 2 2 l with
    | some r => some r
    | none =>
      match p1Try 2 1 l with
      | some r => some r
      | none =>
        match p1Try 1 2 l with
        | some r => some r
        | none => p1Try 1 1 l

/-- Body of date pattern 2 (`YYYY sep MM sep DD`) for one greedy choice
of the two `\d{1,2}` lengths. -/
def p2Try (k2 k3 : ℕ) (l : List Char) : Option (List Char × List (List Char)) :=
  match takeDigitsN 4 l with
  | none => none
  | some (y, r1) =>
    match r1 with
    | [] => none
    | s1 :: r2 =>
      if isDateSep s1 then
        match takeDigitsN k2 r2 with
        | none => none
        | some (d2, r3) =>
          match r3 with
          | [] => none
          | s2 :: r4 =>
            if isDateSep s2 then
              match takeDigitsN k3 r4 with
              | none => none
              | some (d3, r5) =>
                if wordOpt r5.head? then none
                else some (y ++ s1 :: d2 ++ s2 :: d3, [y, d2, d3])
            else none
      else none

/-- Date pattern 2 at one position. -/
def p2At (prev : Option Char) (l : List Char) : Option (List Char × List (List Char)) :=
  if wordOpt prev then none
  else
    match p2Try 2 2 l with
    | some r => some r
    | none =>
      match p2Try 2 1 l with
      | some r => some r
      | none =>
        match p2Try 1 2 l with
        | some r => some r
        | none => p2Try 1 1 l

/-- Month alternation of date pattern 3, in the listed order. -/
def monthAbbrevs : List (List Char) :=
  ["jan".toList, "feb".toList, "mar".toList, "apr".toList, "may".toList, "mei".toList,
   "jun".toList, "jul".toList, "aug".toList, "agu".toList, "sep".toList, "oct".toList,
   "okt".toList, "nov".toList, "dec".toList, "des".toList]

/-- Month alternation of date pattern 4. -/
def monthFulls : List (List Char) :=
  ["january".toList, "february".toList, "march".toList, "april".toList, "may".toList,
   "june".toList, "july".toList, "august".toList, "september".toList, "october".toList,
   "november".toList, "december".toList]

/-- Case-insensitive literal alternation (`re.IGNORECASE`): first
alternative whose lowercase form equals the lowercased input prefix.
The alternatives are pairwise non-prefix, so at most one can match and
the listed order is faithful to the regex alternation. -/
def matchAltCI (alts : List (List Char)) (l : List Char) : Option (List Char × List Char) :=
  match alts with
  | [] => none
  | a :: rest =>
    if lowerList (l.take a.length) = a then some (l.take a.length, l.drop a.length)
    else matchAltCI rest l

/-- Body of date pattern 3 (`DD  month-abbrev  \w*  YYYY`) for one
greedy choice of the `\d{1,2}` length. -/
def p3Try (k : ℕ) (l : List Char) : Option (List Char × List (List Char)) :=
  match takeDigitsN k l with
  | none => none
  | some (d1, r1) =>
    match wsTake1 r1 with
    | none => none
    | some (w1, r2) =>
      match matchAltCI monthAbbrevs r2 with
      | none => none
      | some (mon, r3) =>
        match wordTake r3 with
        | (wext, r4) =>
          match wsTake1 r4 with
          | none => none
          | some (w2, r5) =>
            match takeDigitsN 4 r5 with
            | none => none
            | some (y, r6) =>
              if wordOpt r6.head? then none
              else some (d1 ++ w1 ++ mon ++ wext ++ w2 ++ y, [d1, mon, y])

/-- Date pattern 3 at one position. -/
def p3At (prev : Option Char) (l : List Char) : Option (List Char × List (List Char)) :=
  if wordOpt prev then none
  else
    match p3Try 2 l with
    | some r => some r
    | none => p3Try 1 l

/-- Body of date pattern 4 (`DD  month-name  YYYY`). -/
def p4Try (k : ℕ) (l : List Char) : Option (List Char × List (List Char)) :=
  match takeDigitsN k l with
  | none => none
  | some (d1, r1) =>
    match wsTake1 r1 with
    | none => none
    | some (w1, r2) =>
      match matchAltCI monthFulls r2 with
      | none => none
      | some (mon, r3) =>
        match wsTake1 r3 with
        | none => none
        | some (w2, r4) =>
          match takeDigitsN 4 r4 with
          | none => none
          | some (y, r5) =>
            if wordOpt r5.head? then none
            else some (d1 ++ w1 ++ mon ++ w2 ++ y, [d1, mon, y])

/-- Date pattern 4 at one position. -/
def p4At (prev : Option Char) (l : List Char) : Option (List Char × List (List Char)) :=
  if wordOpt prev then none
  else
    match p4Try 2 l with
    | some r => some r
    | none => p4Try 1 l

/-- `re.search` driver: leftmost position wins; the at-position matcher
carries the previous character for `\b`. -/
def searchAux (f : Option Char → List Char → Option (List Char × List (List Char))) :
    Option Char → List Char → Option (List Char × List (List Char))
  | _, [] => none
  | prev, c :: rest =>
    match f prev (c :: rest) with
    | some r => some r
    | none => searchAux f (some c) rest

/-- `re.search(DATE_PATTERNS[0], text, re.IGNORECASE)`. -/
def searchP1 (l : List Char) : Option (List Char × List (List Char)) := searchAux p1At none l

/-- `re.search(DATE_PATTERNS[1], text, re.IGNORECASE)`. -/
def searchP2 (l : List Char) : Option (List Char × List (List Char)) := searchAux p2At none l

/-- `re.search(DATE_PATTERNS[2], text, re.IGNORECASE)`. -/
def searchP3 (l : List Char) : Option (List Char × List (List Char)) := searchAux p3At none l

/-- `re.search(DATE_PATTERNS[3], text, re.IGNORECASE)`. -/
def searchP4 (l : List Char) : Option (List Char × List (List Char)) := searchAux p4At none l

/-- The literal regex source text `ExtractionConfig.DATE_PATTERNS[0]`
(the data that `_parse_date_match` inspects). -/
def datePattern1 : String := "\\b(\\d\x7b1,2\x7d)[/\\-.](\\d\x7b1,2\x7d)[/\\-.](\\d\x7b4\x7d)\\b"

/-- The literal regex source text `ExtractionConfig.DATE_PATTERNS[1]`. -/
def datePattern2 : String := "\\b(\\d\x7b4\x7d)[/\\-.](\\d\x7b1,2\x7d)[/\\-.](\\d\x7b1,2\x7d)\\b"

/-- The literal regex source text `ExtractionConfig.DATE_PATTERNS[2]`. -/
def datePattern3 : String := "\\b(\\d\x7b1,2\x7d)\\s+(jan|feb|mar|apr|may|mei|jun|jul|aug|agu|sep|oct|okt|nov|dec|des)\\w*\\s+(\\d\x7b4\x7d)\\b"

/-- The literal regex source text `ExtractionConfig.DATE_PATTERNS[3]`. -/
def datePattern4 : String := "\\b(\\d\x7b1,2\x7d)\\s+(january|february|march|april|may|june|july|august|september|october|november|december)\\s+(\\d\x7b4\x7d)\\b"

/-- `g.isdigit()` for a regex group. -/
def digitsOnly (g : List Char) : Bool := decide (g ≠ []) && g.all Char.isDigit

/-- `DateExtractor._parse_date_match` : note that the branch test
`"YYYY" in pattern and pattern.find("YYYY") == 0` inspects the regex
SOURCE STRING, which never starts with the four letters YYYY, so the
numeric branch always takes `day, month, year = nums[0], nums[1],
nums[2]`. -/
def parseDateMatch (pattern : String) (groups : List (List Char)) : Option PyDate :=
  if [("jan".toList), ("feb".toList), ("mar".toList)].any
      (fun m => containsSub m (lowerList pattern.toList)) then
    if 3 ≤ groups.length then
      let day : ℤ := (digitsToNat (groups.getD 0 []) : ℤ)
      let mstr := lowerList (groups.getD 1 [])
      match monthLookup mstr with
      | some mo => mkDate (digitsToNat (groups.getD 2 []) : ℤ) mo day
      | none => none
    else none
  else if 3 ≤ groups.length then
    let nums := (groups.filter digitsOnly).map (fun g => (digitsToNat g : ℤ))
    if 3 ≤ nums.length then
      let startsYYYY := startsWithL ("YYYY".toList) pattern.toList
      let day := if startsYYYY then nums.getD 2 0 else nums.getD 0 0
      let month := nums.getD 1 0
      let year0 := if startsYYYY then nums.getD 0 0 else nums.getD 2 0
      let year := if year0 < 100 then (if year0 < 50 then year0 + 2000 else year0 + 1900) else year0
      mkDate year month day
    else none
  else none

/-- One iteration of the pattern loop in `DateExtractor.extract` :
if the pattern matched, parse and validate; an invalid or implausible
date behaves as no-match (the loop moves to the next pattern). -/
def dateTryPattern (today : PyDate) (pattern : String)
    (m : Option (List Char × List (List Char))) : Option (List Char × PyDate) :=
  match m with
  | some (raw, groups) =>
    match parseDateMatch pattern groups with
    | some d => if isValidDate today d then some (raw, d) else none
    | none => none
  | none => none

/-- `DateExtractor.extract` : concatenate all detection text, try the
four patterns in order. -/
def dateExtract (today : PyDate) (results : List OCRResult) :
    Option (List Char) × Option PyDate :=
  let fullText := joinSpaces (results.map (fun r => r.text))
  match dateTryPattern today datePattern1 (searchP1 fullText) with
  | some (raw, d) => (some raw, some d)
  | none =>
    match dateTryPattern today datePattern2 (searchP2 fullText) with
    | some (raw, d) => (some raw, some d)
    | none =>
      match dateTryPattern today datePattern3 (searchP3 fullText) with
      | some (raw, d) => (some raw, some d)
      | none =>
        match dateTryPattern today datePattern4 (searchP4 fullText) with
        | some (raw, d) => (some raw, some d)
        | none => (none, none)

/-- `MerchantExtractor.EXCLUDE_PATTERNS[0]` : the anchored regex
`^\d\x7b2\x7d[/\-]\d\x7b2\x7d[/\-]\d\x7b2,4\x7d$` (date-shaped). -/
def exDateShaped (l : List Char) : Bool :=
  match takeDigitsN 2 l with
  | some (_, s1 :: r2) =>
    if s1 = '/' || s1 = '-' then
      match takeDigitsN 2 r2 with
      | some (_, s2 :: r4) =>
        if s2 = '/' || s2 = '-' then
          r4.all Char.isDigit && decide (2 ≤ r4.length) && decide (r4.length ≤ 4)
        else false
      | _ => false
    else false
  | _ => false

/-- `MerchantExtractor.EXCLUDE_PATTERNS[1]` : time-shaped
`^\d\x7b2\x7d:\d\x7b2\x7d(:\d\x7b2\x7d)?$`. -/
def exTimeShaped (l : List Char) : Bool :=
  match takeDigitsN 2 l with
  | some (_, ':' :: r2) =>
    match takeDigitsN 2 r2 with
    | some (_, []) => true
    | some (_, ':' :: r4) =>
      match takeDigitsN 2 r4 with
      | some (_, []) => true
      | _ => false
    | _ => false
  | _ => false

/-- `MerchantExtractor.EXCLUDE_PATTERNS[2]` : phone-shaped
`^\+?\d[\d\s\-]\x7b8,\x7d$`. -/
def exPhoneShaped (l : List Char) : Bool :=
  let l2 := match l with
    | '+' :: r => r
    | r => r
  match l2 with
  | c :: rest =>
    c.isDigit && rest.all (fun x => x.isDigit || isWs x || x = '-') && decide (8 ≤ rest.length)
  | [] => false

/-- `\b` after a literal that ends in a NON-word character (such as
`jl.`): the boundary holds iff the next character IS a word character. -/
def boundaryAfterNonWord (rest : List Char) : Bool :=
  match rest with
  | [] => false
  | c :: _ => isWord c

/-- `\b` after a literal that ends in a word character: the boundary
holds iff the next character is absent or not a word character. -/
def boundaryAfterWordChar (rest : List Char) : Bool :=
  match rest with
  | [] => true
  | c :: _ => !isWord c

/-- An anchored alternative `word` followed by `\b` (for words ending
in a word character). -/
def startsWordAlt (w : List Char) (l : List Char) : Bool :=
  startsWithL w l && boundaryAfterWordChar (l.drop w.length)

/-- `MerchantExtractor.EXCLUDE_PATTERNS[3]` : `^(jl\.|jalan|alamat|address)\b`.
Note the `jl.` alternative ends in a dot, so its `\b` needs a following
word character. -/
def exAddrLabel (l : List Char) : Bool :=
  (startsWithL ("jl.".toList) l && boundaryAfterNonWord (l.drop 3)) ||
  startsWordAlt ("jalan".toList) l || startsWordAlt ("alamat".toList) l ||
  startsWordAlt ("address".toList) l

/-- `MerchantExtractor.EXCLUDE_PATTERNS[4]` : `^(telp?|phone|hp|whatsapp)\b`
(the optional `p` of `telp?` is tried greedily, then dropped). -/
def exPhoneLabel (l : List Char) : Bool :=
  startsWordAlt ("telp".toList) l || startsWordAlt ("tel".toList) l ||
  startsWordAlt ("phone".toList) l || startsWordAlt ("hp".toList) l ||
  startsWordAlt ("whatsapp".toList) l

/-- `MerchantExtractor.EXCLUDE_PATTERNS[5]` : `^wa\s*:`. -/
def exWaLabel (l : List Char) : Bool :=
  startsWithL ("wa".toList) l &&
  (match (l.drop 2).dropWhile isWs with
   | ':' :: _ => true
   | _ => false)

/-- `MerchantExtractor.EXCLUDE_PATTERNS[6]` : `^(npwp|nik)\b`. -/
def exIdLabel (l : List Char) : Bool :=
  startsWordAlt ("npwp".toList) l || startsWordAlt ("nik".toList) l

/-- `MerchantExtractor.EXCLUDE_PATTERNS[7]` : `^no\s*:`. -/
def exNoLabel (l : List Char) : Bool :=
  startsWithL ("no".toList) l &&
  (match (l.drop 2).dropWhile isWs with
   | ':' :: _ => true
   | _ => false)

/-- `MerchantExtractor.EXCLUDE_PATTERNS[8]` : `^[\-=_\*]\x7b3,\x7d$`. -/
def exSeparatorLine (l : List Char) : Bool :=
  decide (3 ≤ l.length) && l.all (fun c => c = '-' || c = '=' || c = '_' || c = '*')

/-- `MerchantExtractor.EXCLUDE_PATTERNS[9]` : `^(struk|receipt|invoice|nota)\b`. -/
def exDocLabel (l : List Char) : Bool :=
  startsWordAlt ("struk".toList) l || startsWordAlt ("receipt".toList) l ||
  startsWordAlt ("invoice".toList) l || startsWordAlt ("nota".toList) l

/-- `MerchantExtractor._should_exclude` : lowercase, then try the ten
anchored patterns. -/
def shouldExclude (text : List Char) : Bool :=
  let tl := lowerList text
  exDateShaped tl || exTimeShaped tl || exPhoneShaped tl || exAddrLabel tl ||
  exPhoneLabel tl || exWaLabel tl || exIdLabel tl || exNoLabel tl ||
  exSeparatorLine tl || exDocLabel tl

/-- Python `str.isupper()` : at least one cased character and no
lowercase character (ASCII). -/
def pyIsUpper (l : List Char) : Bool :=
  l.any (fun c => c.isLower || c.isUpper) && l.all (fun c => !c.isLower)

/-- Python `str.isdigit()` (ASCII). -/
def pyIsDigitStr (l : List Char) : Bool := decide (l ≠ []) && l.all Char.isDigit

/-- `MerchantExtractor._score_merchant_candidate`. -/
def scoreMerchantCandidate (text : List Char) (r : OCRResult) : ℚ :=
  (if pyIsUpper text = true ∧ 3 < text.length then 2 else 0) +
  (if 3 ≤ text.length ∧ text.length ≤ 50 then 1 else 0) +
  ((max 0 (3 - (r.line_index : ℤ)) : ℤ) : ℚ) +
  (if pyIsDigitStr text = true then -5 else 0) +
  (if text.any Char.isAlpha = true then 1 else 0)

/-- The candidate-collection loop of `MerchantExtractor.extract`. -/
def merchantCandidates (results : List OCRResult) (topN : ℕ) :
    List (List Char × ℚ × ℚ) :=
  (results.take topN).filterMap (fun r =>
    let text := trimList r.text
    if text.length < 2 then none
    else if shouldExclude text then none
    else some (text, scoreMerchantCandidate text r, r.confidence))

/-- Python's stable descending sort key for merchant candidates:
`a` may precede `b` iff `(score, confidence)` of `b` is
lexicographically at most that of `a`. -/
def merchantKeyGe (a b : List Char × ℚ × ℚ) : Prop :=
  b.2.1 < a.2.1 ∨ (b.2.1 = a.2.1 ∧ b.2.2 ≤ a.2.2)

instance : DecidableRel merchantKeyGe := fun a b => by
  unfold merchantKeyGe; infer_instance

/-- `MerchantExtractor.extract` (with `top_n_lines = topN`) : score the
surviving candidates, stable-sort by `(score, confidence)` descending
(`list.sort(..., reverse=True)`), return the best; if every candidate
was excluded, fall back to the first non-empty text among the first
three detections. -/
def merchantExtract (results : List OCRResult) (topN : ℕ) : Option (List Char) :=
  if results = [] then none
  else
    let candidates := merchantCandidates results topN
    if candidates = [] then
      (results.take 3).findSome? (fun r =>
        if trimList r.text ≠ [] then some (trimList r.text) else none)
    else
      match List.insertionSort merchantKeyGe candidates with
      | [] => none
      | best :: _ => some best.1

/-- `ExtractionConfig.TOTAL_KEYWORDS`. -/
def TOTAL_KEYWORDS : List (List Char) :=
  ["grand total".toList, "total".toList, "jumlah".toList, "bayar".toList,
   "amount".toList, "tunai".toList, "cash".toList, "subtotal".toList,
   "sub total".toList, "pembayaran".toList, "tagihan".toList,
   "total bayar".toList, "total belanja".toList]

/-- `ExtractionConfig.EXCLUDE_KEYWORDS`. -/
def EXCLUDE_KEYWORDS : List (List Char) :=
  ["diskon".toList, "discount".toList, "ppn".toList, "tax".toList, "pajak".toList,
   "kembalian".toList, "change".toList, "item".toList, "qty".toList, "quantity".toList]

/-- `" ".join(r.text for r in line).lower()`. -/
def lineText (line : List OCRResult) : List Char :=
  lowerList (joinSpaces (line.map (fun r => r.text)))

/-- `any(kw in line_text for kw in ExtractionConfig.EXCLUDE_KEYWORDS)`. -/
def hasExcludeKeyword (lt : List Char) : Bool :=
  EXCLUDE_KEYWORDS.any (fun kw => containsSub kw lt)

/-- `any(kw in line_text for kw in ExtractionConfig.TOTAL_KEYWORDS)`. -/
def hasTotalKeyword (lt : List Char) : Bool :=
  TOTAL_KEYWORDS.any (fun kw => containsSub kw lt)

/-- The same-line scan of `TotalAmountExtractor._extract_by_keyword` :
`for result in reversed(line)` (the argument is the already-reversed
line), accept the first parsed value that is `> 0` and `>= 100` at
confidence 0.9. -/
def scanSameLine : List OCRResult → Option (List Char × ℚ × ℚ)
  | [] => none
  | r :: rest =>
    match currencyParse r.text with
    | (some p, raw) =>
      if 0 < p ∧ 100 ≤ p then some (raw, p, mkRat 9 10) else scanSameLine rest
    | (none, _) => scanSameLine rest

/-- The next-line scan of `TotalAmountExtractor._extract_by_keyword` :
left to right, accept the first parsed value `>= 100` at 0.85. -/
def scanNextLine : List OCRResult → Option (List Char × ℚ × ℚ)
  | [] => none
  | r :: rest =>
    match currencyParse r.text with
    | (some p, raw) =>
      if 100 ≤ p then some (raw, p, mkRat 85 100) else scanNextLine rest
    | (none, _) => scanNextLine rest

/-- The per-keyword body in `_extract_by_keyword` : same-line scan,
then `line_idx = text_lines.index(line)` (first list equal to `line`)
and the next-line scan. -/
def kwBlock (all : List (List OCRResult)) (line : List OCRResult) :
    Option (List Char × ℚ × ℚ) :=
  match scanSameLine line.reverse with
  | some res => some res
  | none =>
    let idx := all.findIdx (fun l2 => l2 = line)
    match all[idx + 1]? with
    | some nextLine => scanNextLine nextLine
    | none => none

/-- `for keyword in TOTAL_KEYWORDS` : the body (pure, so computed once)
runs for each keyword contained in the line text; a body that returns
nothing falls through to the next keyword. -/
def kwKeywordLoop (blk : Option (List Char × ℚ × ℚ)) (lt : List Char) :
    List (List Char) → Option (List Char × ℚ × ℚ)
  | [] => none
  | kw :: kws =>
    if containsSub kw lt then
      match blk with
      | some res => some res
      | none => kwKeywordLoop blk lt kws
    else kwKeywordLoop blk lt kws

/-- The line loop of `_extract_by_keyword` over `reversed(text_lines)`. -/
def kwLines (all : List (List OCRResult)) :
    List (List OCRResult) → Option (List Char × ℚ × ℚ)
  | [] => none
  | line :: rest =>
    let lt := lineText line
    if hasExcludeKeyword lt then kwLines all rest
    else
      match kwKeywordLoop (kwBlock all line) lt TOTAL_KEYWORDS with
      | some res => some res
      | none => kwLines all rest

/-- `TotalAmountExtractor._extract_by_keyword`. -/
def extractByKeyword (text_lines : List (List OCRResult)) :
    Option (List Char × ℚ × ℚ) :=
  kwLines text_lines text_lines.reverse

/-- Python's stable descending sort key on the parsed value
(`amounts.sort(key=lambda x: x[1], reverse=True)`). -/
def valGe (a b : List Char × ℚ × ℚ) : Prop := b.2.1 ≤ a.2.1

instance : DecidableRel valGe := fun a b => by unfold valGe; infer_instance

/-- The collection loop of `TotalAmountExtractor._extract_by_position`
over the bottom lines. -/
def positionAmounts (bottom : List (List OCRResult)) : List (List Char × ℚ × ℚ) :=
  (bottom.filter (fun line => !hasExcludeKeyword (lineText line))).flatMap
    (fun line => line.filterMap (fun r =>
      match currencyParse r.text with
      | (some p, raw) => if 100 ≤ p then some (raw, p, r.confidence) else none
      | (none, _) => none))

/-- `TotalAmountExtractor._extract_by_position` : bottom 30 percent of
lines (`int(len(text_lines) * 0.7)`, modelled as the exact floor
`7 * len / 10`; the binary-float product first deviates from this at
90 lines), largest qualifying amount, confidence 0.75. -/
def extractByPosition (results : List OCRResult) (text_lines : List (List OCRResult)) :
    Option (List Char × ℚ × ℚ) :=
  if text_lines = [] then none
  else
    let bottom := text_lines.drop (7 * text_lines.length / 10)
    match List.insertionSort valGe (positionAmounts bottom) with
    | [] => none
    | best :: _ => some (best.1, best.2.1, mkRat 3 4)

/-- `[A-Z]` (case-sensitive; this pattern is applied to the raw text). -/
def upperAZ (c : Char) : Bool := 'A' ≤ c && c ≤ 'Z'

/-- `TotalAmountExtractor._looks_like_date_or_id` : date shape, time
shape, or `^[A-Z]\x7b2,\x7d\d\x7b6,\x7d$`. -/
def looksLikeDateOrId (text : List Char) : Bool :=
  exDateShaped text || exTimeShaped text ||
  (decide (2 ≤ (text.takeWhile upperAZ).length) &&
   decide (6 ≤ (text.dropWhile upperAZ).length) &&
   (text.dropWhile upperAZ).all Char.isDigit)

/-- The collection loop of `TotalAmountExtractor._extract_max_value`. -/
def maxAmounts (results : List OCRResult) : List (List Char × ℚ × ℚ) :=
  results.filterMap (fun r =>
    match currencyParse r.text with
    | (some p, raw) =>
      if 100 ≤ p then
        (if looksLikeDateOrId r.text then none else some (raw, p, r.confidence))
      else none
    | (none, _) => none)

/-- `TotalAmountExtractor._extract_max_value` : maximum parsed value at
confidence 0.6. -/
def extractMaxValue (results : List OCRResult) : Option (List Char × ℚ × ℚ) :=
  match List.insertionSort valGe (maxAmounts results) with
  | [] => none
  | best :: _ => some (best.1, best.2.1, mkRat 3 5)

/-- `TotalAmountExtractor.extract` : the three strategies in priority
order; `(None, None, 0.0)` if all fail or there are no detections. -/
def totalExtract (results : List OCRResult) (text_lines : List (List OCRResult)) :
    Option (List Char) × Option ℚ × ℚ :=
  if results = [] then (none, none, 0)
  else
    match extractByKeyword text_lines with
    | some (raw, v, c) => (some raw, some v, c)
    | none =>
      match extractByPosition results text_lines with
      | some (raw, v, c) => (some raw, some v, c)
      | none =>
        match extractMaxValue results with
        | some (raw, v, c) => (some raw, some v, c)
        | none => (none, none, 0)

/-- Ascending order on `left_x` (`current_line.sort(key=lambda r: r.left_x)`). -/
def leftLe (a b : OCRResult) : Prop := leftX a ≤ leftX b

instance : DecidableRel leftLe := fun a b => by unfold leftLe; infer_instance

instance : IsTotal OCRResult leftLe := ⟨fun a b => le_total (leftX a) (leftX b)⟩

instance : IsTrans OCRResult leftLe := ⟨fun _ _ _ hab hbc => le_trans hab hbc⟩

/-- Python's stable in-place sort of a line by `left_x`. -/
def sortLeft (line : List OCRResult) : List OCRResult :=
  List.insertionSort leftLe line

/-- The loop of `ReceiptOCR.get_text_lines` : `cur` is the open line,
`curY` its anchor (the `center_y` of its first-assigned member). -/
def gtlAux (thr : ℚ) (cur : List OCRResult) (curY : ℚ) :
    List OCRResult → List (List OCRResult)
  | [] => if cur = [] then [] else [sortLeft cur]
  | r :: rest =>
    if |centerY r - curY| ≤ thr then gtlAux thr (cur ++ [r]) curY rest
    else sortLeft cur :: gtlAux thr [r] (centerY r) rest

/-- `ReceiptOCR.get_text_lines(results, line_threshold=thr)`. -/
def getTextLines (thr : ℚ) : List OCRResult → List (List OCRResult)
  | [] => []
  | r :: rest => gtlAux thr [r] (centerY r) rest

/-- The dictionary returned by `ReceiptExtractor.extract_all`. -/
structure ExtractionResult where
  merchant_name : Option (List Char)
  transaction_date_raw : Option (List Char)
  transaction_date : Option PyDate
  total_amount_raw : Option (List Char)
  total_amount_value : Option ℚ
  confidence_score : ℚ
deriving DecidableEq

/-- `sum(r.confidence for r in ocr_results) / len(ocr_results) if
ocr_results else 0`. -/
def ocrAvgConfidence (results : List OCRResult) : ℚ :=
  if results = [] then 0
  else (results.map (fun r => r.confidence)).sum / (results.length : ℚ)

/-- Round-half-to-even to an integer (CPython `round`), idealised over
exact rationals. -/
def halfEvenInt (q : ℚ) : ℤ :=
  let n := ⌊q⌋
  let f := q - (n : ℚ)
  if f < mkRat 1 2 then n
  else if mkRat 1 2 < f then n + 1
  else if n % 2 = 0 then n else n + 1

/-- Python `round(q, 3)`, idealised over exact rationals. -/
def pyRound3 (q : ℚ) : ℚ := mkRat (halfEvenInt (q * 1000)) 1000

/-- `ReceiptExtractor.extract_all`. -/
def extractAll (today : PyDate) (results : List OCRResult)
    (text_lines : List (List OCRResult)) : ExtractionResult :=
  let merchant := merchantExtract results 5
  let dateRes := dateExtract today results
  let totalRes := totalExtract results text_lines
  let avg := ocrAvgConfidence results
  ⟨merchant, dateRes.1, dateRes.2, totalRes.1, totalRes.2.1,
    pyRound3 (avg * mkRat 3 10 + totalRes.2.2 * mkRat 7 10)⟩

/-- `ReceiptExtractor.extract_all` with the call to
`TotalAmountExtractor.extract` abstracted as a fallible collaborator:
`extract_all` contains no exception handler, so an exception raised by
the total extractor propagates (modelled by `Except`).  Merchant and
date are computed before the call, exactly as in the source. -/
def extractAllF (today : PyDate)
    (totalF : List OCRResult → List (List OCRResult) →
      Except (List Char) (Option (List Char) × Option ℚ × ℚ))
    (results : List OCRResult) (text_lines : List (List OCRResult)) :
    Except (List Char) ExtractionResult :=
  let merchant := merchantExtract results 5
  let dateRes := dateExtract today results
  match totalF results text_lines with
  | Except.error e => Except.error e
  | Except.ok totalRes =>
    let avg := ocrAvgConfidence results
    Except.ok ⟨merchant, dateRes.1, dateRes.2, totalRes.1, totalRes.2.1,
      pyRound3 (avg * mkRat 3 10 + totalRes.2.2 * mkRat 7 10)⟩

/-- Claim transcription (C1): with both separators present, the
last-occurring separator is the decimal separator; every occurrence of
the OTHER separator is stripped as a thousands separator and the
decimal separator is written as a decimal point. -/
def claimStrip (l : List Char) (dec : Char) : List Char :=
  (l.filter (fun c => !(c = '.' || c = ',') || c = dec)).map
    (fun c => if c = dec then '.' else c)

/-- Claim transcription (C10): all digits of the string lie in one
contiguous run of digits, dots, commas and whitespace; other characters
appear only before and after that run. -/
def DigitsContiguousRun (l : List Char) : Prop :=
  ∃ a b c, l = a ++ b ++ c ∧ (∀ x ∈ a, x.isDigit = false) ∧
    (∀ x ∈ b, isSepD x = true) ∧ (∀ x ∈ c, x.isDigit = false)

/-- Claim transcription (C2): the same-line rule, right to left, first
parsed currency value at least 100, confidence 0.9. -/
def kwClaimSameLine (line : List OCRResult) : Option (List Char × ℚ × ℚ) :=
  line.reverse.findSome? (fun r =>
    match currencyParse r.text with
    | (some p, raw) => if 100 ≤ p then some (raw, p, mkRat 9 10) else none
    | (none, _) => none)

/-- Claim transcription (C2): the following-line rule, a parsed
currency value at least 100, confidence 0.85. -/
def kwClaimNextLine (line : List OCRResult) : Option (List Char × ℚ × ℚ) :=
  line.findSome? (fun r =>
    match currencyParse r.text with
    | (some p, raw) => if 100 ≤ p then some (raw, p, mkRat 85 100) else none
    | (none, _) => none)

/-- Claim transcription (C2): scan the lines bottom to top carrying the
position of the current line (`n - 1`); skip lines with an exclusion
keyword; on a line with a total keyword apply the same-line rule, then
the immediately-following-line rule, then continue upward. -/
def kwClaimAux (all : List (List OCRResult)) :
    ℕ → List (List OCRResult) → Option (List Char × ℚ × ℚ)
  | _, [] => none
  | n, line :: rest =>
    let i := n - 1
    let lt := lineText line
    if hasExcludeKeyword lt then kwClaimAux all i rest
    else if hasTotalKeyword lt then
      match kwClaimSameLine line with
      | some res => some res
      | none =>
        match all[i + 1]? with
        | some nextLine =>
          match kwClaimNextLine nextLine with
          | some res => some res
          | none => kwClaimAux all i rest
        | none => kwClaimAux all i rest
    else kwClaimAux all i rest

/-- Claim transcription (C2): the keyword strategy as the claim states
it, scanning `text_lines` bottom to top with true positions. -/
def keywordClaim (text_lines : List (List OCRResult)) : Option (List Char × ℚ × ℚ) :=
  kwClaimAux text_lines text_lines.length text_lines.reverse

/-- Claim transcription (C6): a detection joins the current line exactly
when its `center_y` is within 20 of the `center_y` of the line's
first-assigned member; otherwise it starts a new line; every closed
line is sorted by `left_x` and the final open line is flushed. -/
def claimClusterAux (f : OCRResult) (tail : List OCRResult) :
    List OCRResult → List (List OCRResult)
  | [] => [sortLeft (f :: tail)]
  | r :: rest =>
    if |centerY r - centerY f| ≤ 20 then claimClusterAux f (tail ++ [r]) rest
    else sortLeft (f :: tail) :: claimClusterAux r [] rest

/-- Claim transcription (C6): clustering at threshold 20 as the claim
states it (empty input gives empty output). -/
def claimCluster : List OCRResult → List (List OCRResult)
  | [] => []
  | r :: rest => claimClusterAux r [] rest

/-- The reference date used for the concrete evaluations (a fixed
version of `date.today()`). -/
def todayRef : PyDate := ⟨2026, 10, 12⟩

/-- Concrete detection "INDOMARET" of the C5 merchant test. -/
def c5det1 : OCRResult :=
  ⟨"INDOMARET".toList, mkRat 95 100, [(0, 0), (100, 0), (100, 20), (0, 20)], 0⟩

/-- Concrete detection for the address line of the C5 merchant test. -/
def c5det2 : OCRResult :=
  ⟨"Jl. Sudirman 123".toList, mkRat 9 10, [(0, 30), (100, 30), (100, 50), (0, 50)], 1⟩

/-- Concrete detection for the date-time line of the C5 merchant test. -/
def c5det3 : OCRResult :=
  ⟨"11/01/2026 14:30".toList, mkRat 9 10, [(0, 60), (100, 60), (100, 80), (0, 80)], 2⟩

/-- Concrete detection at `center_y` 10, `left_x` 0 (C6). -/
def c6detA : OCRResult :=
  ⟨"aa".toList, mkRat 9 10, [(0, 10), (10, 10), (10, 10), (0, 10)], 0⟩

/-- Concrete detection at `center_y` 15, `left_x` 5 (C6). -/
def c6detB : OCRResult :=
  ⟨"bb".toList, mkRat 9 10, [(5, 15), (15, 15), (15, 15), (5, 15)], 1⟩

/-- Concrete detection at `center_y` 50, `left_x` 2 (C6). -/
def c6detC : OCRResult :=
  ⟨"cc".toList, mkRat 8 10, [(2, 50), (12, 50), (12, 50), (2, 50)], 2⟩

/-- Concrete keyword-strategy input: one line reading
`Total  Rp 150.000` (C2 witness). -/
def c2lines : List (List OCRResult) :=
  [[⟨"Total".toList, mkRat 9 10, [(0, 0), (40, 0), (40, 10), (0, 10)], 0⟩,
    ⟨"Rp 150.000".toList, mkRat 9 10, [(60, 0), (100, 0), (100, 10), (60, 10)], 1⟩]]

/-- A single concrete detection used by the C9 counterexample. -/
def c9det : OCRResult :=
  ⟨"Total".toList, mkRat 9 10, [(0, 0), (40, 0), (40, 10), (0, 10)], 0⟩

/-! ### Helper lemmas -/

theorem isWs_eq_false_of_sep {c : Char} (h : c.isDigit = true ∨ c = '.' ∨ c = ',') :
    isWs c = false := by
  cases hw : isWs c with
  | false => rfl
  | true =>
    exfalso
    have hmem : ((c = ' ' ∨ c = '\t') ∨ c = '\r') ∨ c = '\n' := by
      simpa [isWs, Char.isWhitespace] using hw
    rcases hmem with ((rfl | rfl) | rfl) | rfl <;> revert h <;> decide

theorem filter_not_ws_eq {l : List Char}
    (h : ∀ c ∈ l, c.isDigit = true ∨ c = '.' ∨ c = ',') :
    l.filter (fun c => !isWs c) = l := by
  apply List.filter_eq_self.mpr
  intro a ha
  simp [isWs_eq_false_of_sep (h a ha)]

theorem pyFloat_none_of_two_dots {l : List Char} (h : 2 ≤ l.count '.') :
    pyFloat l = none := by
  unfold pyFloat
  rw [if_neg]
  rintro ⟨-, -, hle, -⟩
  omega

theorem count_dot_filter_ne_dot (l : List Char) :
    (l.filter (fun c => c ≠ '.')).count '.' = 0 := by
  rw [List.count_eq_zero]
  intro hmem
  rcases List.mem_filter.mp hmem with ⟨-, hdec⟩
  simp at hdec

theorem count_dot_map_commaToDot (l : List Char) (h : l.count '.' = 0) :
    ((l.map (fun c => if c = ',' then '.' else c)).count '.') = l.count ',' := by
  induction l with
  | nil => simp
  | cons c tl ih =>
    have hc : c ≠ '.' := by
      intro hh
      subst hh
      simp [List.count_cons] at h
    have htl : tl.count '.' = 0 := by
      simp [List.count_cons] at h
      omega
    by_cases hcc : c = ','
    · subst hcc
      simp [List.count_cons, ih htl]
    · simp [List.count_cons, ih htl, hcc, hc]

/-- C1 (counterexample) : the dot-last mixed string `1,2.3.4` has an
earlier dot that the code does NOT strip (`replace(",", "")` only), so
conversion fails and the parse is absent; under the claim's reading
(all earlier dots as well as all commas removed) the digits `123.4`
convert to a value. -/
theorem c1_counterexample :
    parseNumberString ("1,2.3.4".toList) = none ∧
    pyFloat ("123.4".toList) = some (mkRat 1234 10) := by
  constructor
  · with_unfolding_all rfl
  · with_unfolding_all rfl

/-- C1 (amended) : with both separators present the last-occurring
separator is the decimal separator and every occurrence of the OTHER
separator is stripped; occurrences of the decimal separator itself are
kept (so conversion yields a value exactly when the decimal separator
occurs once, and is absent when it occurs two or more times); in
particular `50.000,00` and `50,000.00` both parse to 50000. -/
theorem c1_amended :
    (∀ l : List Char, (∀ c ∈ l, c.isDigit = true ∨ c = '.' ∨ c = ',') →
        1 ≤ l.count '.' → 1 ≤ l.count ',' →
        parseNumberString l =
          pyFloat (claimStrip l (if rfindIdx ',' l > rfindIdx '.' l then ',' else '.'))) ∧
    (∀ l : List Char, (∀ c ∈ l, c.isDigit = true ∨ c = '.' ∨ c = ',') →
        1 ≤ l.count '.' → 1 ≤ l.count ',' →
        2 ≤ l.count (if rfindIdx ',' l > rfindIdx '.' l then ',' else '.') →
        parseNumberString l = none) ∧
    parseNumberString ("50.000,00".toList) = some 50000 ∧
    parseNumberString ("50,000.00".toList) = some 50000 := by
  have hbranch : ∀ l : List Char, (∀ c ∈ l, c.isDigit = true ∨ c = '.' ∨ c = ',') →
      1 ≤ l.count '.' → 1 ≤ l.count ',' →
      parseNumberString l =
        (if rfindIdx ',' l > rfindIdx '.' l then
          pyFloat ((l.filter (fun c => c ≠ '.')).map (fun c => if c = ',' then '.' else c))
        else pyFloat (l.filter (fun c => c ≠ ','))) := by
    intro l hch hd hc
    have hws := filter_not_ws_eq hch
    unfold parseNumberString
    simp only [hws]
    have hne : ¬(l = []) := by
      intro h
      subst h
      simp at hd
    rw [if_neg hne, if_neg (by omega : ¬(l.count '.' = 0 ∧ l.count ',' = 0)),
      if_neg (by omega : ¬(l.count '.' = 0 ∧ l.count ',' = 1)),
      if_neg (by omega : ¬(l.count '.' = 1 ∧ l.count ',' = 0)),
      if_pos (⟨hd, hc⟩ : 1 ≤ l.count '.' ∧ 1 ≤ l.count ',')]
  refine ⟨?_, ?_, by with_unfolding_all rfl, by with_unfolding_all rfl⟩
  · intro l hch hd hc
    rw [hbranch l hch hd hc]
    by_cases hlast : rfindIdx ',' l > rfindIdx '.' l
    · rw [if_pos hlast, if_pos hlast]
      unfold claimStrip
      congr 1
      apply congrArg
      apply List.filter_congr
      intro a _
      by_cases h1 : a = '.' <;> by_cases h2 : a = ',' <;> simp [h1, h2]
    · rw [if_neg hlast, if_neg hlast]
      unfold claimStrip
      have hid : ∀ x : Char, (if x = '.' then '.' else x) = x := by
        intro x
        by_cases h : x = '.' <;> simp [h]
      simp only [hid]
      rw [List.map_id']
      apply congrArg
      apply List.filter_congr
      intro a _
      by_cases h1 : a = '.' <;> by_cases h2 : a = ',' <;> simp [h1, h2]
  · intro l hch hd hc h2
    rw [hbranch l hch hd hc]
    by_cases hlast : rfindIdx ',' l > rfindIdx '.' l
    · rw [if_pos hlast]
      rw [if_pos hlast] at h2
      apply pyFloat_none_of_two_dots
      rw [count_dot_map_commaToDot _ (count_dot_filter_ne_dot l)]
      rw [List.count_filter (by simp)]
      exact h2
    · rw [if_neg hlast]
      rw [if_neg hlast] at h2
      apply pyFloat_none_of_two_dots
      rw [List.count_filter (by simp)]
      exact h2

theorem currencyParse_snd (s : List Char) : (currencyParse s).2 = trimList s := by
  unfold currencyParse
  by_cases hs : s = []
  · subst hs
    rfl
  · rw [if_neg hs]
    simp only []
    by_cases hc : trimList (cleanCurrency (trimList s)) = []
    · rw [if_pos hc]
    · rw [if_neg hc]
      cases hm : numMatch (trimList (cleanCurrency (trimList s))) <;> simp [hm]

/-- C7 (counterexample): for the input " x " the parse result is absent
but the raw component is the STRIPPED string "x", not the original
input " x ", contradicting "the original input preserved as the raw
component". -/
theorem c7_counterexample :
    currencyParse (" x ".toList) = (none, "x".toList) ∧
    ("x".toList : List Char) ≠ " x ".toList := by
  constructor
  · with_unfolding_all rfl
  · decide

/-- C7 (amended): currency parse never raises (the embedding is a total
function): for every string it returns a value or an absent value, and
on failure the raw component is the whitespace-stripped original; in
particular parse(""), parse(None) and parse("Hello World") yield an
absent value with "", "" and "Hello World" as raw. -/
theorem c7_amended :
    (∀ s : List Char, (currencyParse s).1 = none → (currencyParse s).2 = trimList s) ∧
    currencyParse [] = (none, []) ∧
    currencyParseNone = (none, []) ∧
    currencyParse ("Hello World".toList) = (none, "Hello World".toList) := by
  refine ⟨fun s _ => currencyParse_snd s, rfl, rfl, by with_unfolding_all rfl⟩

/-- Witness for C7: the amended theorem applied at the concrete
unparsable input "abc". -/
theorem c7_amended_witness :
    (currencyParse ("abc".toList)).1 = none ∧
    (currencyParse ("abc".toList)).2 = trimList ("abc".toList) :=
  ⟨by with_unfolding_all rfl, c7_amended.1 _ (by with_unfolding_all rfl)⟩

theorem numMatch_digitsRun {l g : List Char} (h : numMatch l = some g) :
    DigitsContiguousRun l := by
  unfold numMatch at h
  by_cases hd : l.any Char.isDigit
  · rw [if_pos hd] at h
    simp only [] at h
    by_cases hpost : ((l.dropWhile (fun c => !c.isDigit)).dropWhile isSepD).any Char.isDigit
    · rw [if_pos hpost] at h
      exact absurd h (by simp)
    · refine ⟨l.takeWhile (fun c => !c.isDigit),
        (l.dropWhile (fun c => !c.isDigit)).takeWhile isSepD,
        (l.dropWhile (fun c => !c.isDigit)).dropWhile isSepD, ?_, ?_, ?_, ?_⟩
      · simp only [List.append_assoc]
        conv_rhs => rw [List.takeWhile_append_dropWhile, List.takeWhile_append_dropWhile]
      · intro x hx
        have := List.mem_takeWhile_imp hx
        simpa using this
      · intro x hx
        exact List.mem_takeWhile_imp hx
      · intro x hx
        cases hxd : x.isDigit with
        | false => rfl
        | true => exact absurd (List.any_eq_true.mpr ⟨x, hx, hxd⟩) hpost
  · rw [if_neg hd] at h
    refine ⟨l, [], [], by simp, ?_, by simp, by simp⟩
    intro x hx
    cases hxd : x.isDigit with
    | false => rfl
    | true => exact absurd (List.any_eq_true.mpr ⟨x, hx, hxd⟩) hd

/-- C10: currency parse succeeds only when, after currency-prefix
removal, all digits of the string form one contiguous run of digits,
dots, commas and whitespace (non-digits only before and after); and
date-shaped "11/01/2026" and time-shaped "14:30" parse to an absent
value with the input preserved as raw. -/
theorem c10_claim :
    (∀ s : List Char, (currencyParse s).1.isSome = true →
        DigitsContiguousRun (trimList (cleanCurrency (trimList s)))) ∧
    currencyParse ("11/01/2026".toList) = (none, "11/01/2026".toList) ∧
    currencyParse ("14:30".toList) = (none, "14:30".toList) := by
  refine ⟨?_, by with_unfolding_all rfl, by with_unfolding_all rfl⟩
  intro s h
  unfold currencyParse at h
  by_cases hs : s = []
  · rw [if_pos hs] at h
    simp at h
  · rw [if_neg hs] at h
    simp only [] at h
    by_cases hc : trimList (cleanCurrency (trimList s)) = []
    · rw [if_pos hc] at h
      simp at h
    · rw [if_neg hc] at h
      cases hm : numMatch (trimList (cleanCurrency (trimList s))) with
      | none =>
        rw [hm] at h
        simp at h
      | some g => exact numMatch_digitsRun hm

/-- Witness for C10: the claim applied at the concrete parsable input
"Rp 50.000". -/
theorem c10_witness :
    (currencyParse ("Rp 50.000".toList)).1.isSome = true ∧
    DigitsContiguousRun (trimList (cleanCurrency (trimList ("Rp 50.000".toList)))) :=
  ⟨by with_unfolding_all rfl, c10_claim.1 _ (by with_unfolding_all rfl)⟩

/-- Witness for C1: the amended theorem applied at the concrete mixed
string "1.234,56" (comma-last, one comma). -/
theorem c1_amended_witness :
    (∀ c ∈ ("1.234,56".toList), c.isDigit = true ∨ c = '.' ∨ c = ',') ∧
    parseNumberString ("1.234,56".toList) =
      pyFloat (claimStrip ("1.234,56".toList)
        (if rfindIdx ',' ("1.234,56".toList) > rfindIdx '.' ("1.234,56".toList)
         then ',' else '.')) :=
  ⟨by decide, c1_amended.1 _ (by decide) (by decide) (by decide)⟩

/-- C4 (code-bug evaluation): with today = 2026-10-12 and the single
detection "2026/01/11" (calendar-valid and plausible under the claim,
as the last two conjuncts show; no DD/MM/YYYY-shaped match exists), the
date extractor returns (none, none) instead of the claimed date: the
source guard compares the four letters YYYY against the regex source
text, which never starts with them, so the match is parsed day-first
and date(2011, 1, 2026) raises and is swallowed. -/
theorem c4_code_bug_eval :
    dateExtract todayRef
      [⟨"2026/01/11".toList, mkRat 95 100, [(0, 0), (10, 0), (10, 5), (0, 5)], 0⟩] =
      (none, none) ∧
    searchP2 ("2026/01/11".toList) =
      some ("2026/01/11".toList, ["2026".toList, "01".toList, "11".toList]) ∧
    searchP1 ("2026/01/11".toList) = none ∧
    mkDate 2026 1 11 = some ⟨2026, 1, 11⟩ ∧
    isValidDate todayRef ⟨2026, 1, 11⟩ = true := by
  refine ⟨by with_unfolding_all rfl, by with_unfolding_all rfl, by with_unfolding_all rfl,
    by with_unfolding_all rfl, by with_unfolding_all rfl⟩

/-- C8 (counterexample): with today = 2026-10-12, the date 2021-01-01
is strictly more than five years before today (it is before
2021-10-12), yet the plausibility check accepts it — the actual cutoff
is January 1 of (today.year - 5). -/
theorem c8_counterexample :
    isValidDate todayRef ⟨2021, 1, 1⟩ = true ∧
    dateLt ⟨2021, 1, 1⟩ ⟨todayRef.year - 5, todayRef.month, todayRef.day⟩ = true := by
  constructor
  · with_unfolding_all rfl
  · with_unfolding_all rfl

/-- C8 (amended): the plausibility check accepts d iff d is not after
today and not before January 1 of (today.year - 5); and a structurally
valid but implausible first match is treated as no-match and the next
pattern is tried: in "01/01/2099 25 des 2025" the future-dated numeric
match is rejected and the month-name pattern yields 25 December 2025. -/
theorem c8_amended :
    (∀ today d : PyDate, isValidDate today d = true ↔
        (dateLe d today = true ∧ dateLe ⟨today.year - 5, 1, 1⟩ d = true)) ∧
    dateExtract todayRef
      [⟨"01/01/2099 25 des 2025".toList, mkRat 95 100, [(0, 0), (10, 0), (10, 5), (0, 5)], 0⟩] =
      (some ("25 des 2025".toList), some ⟨2025, 12, 25⟩) := by
  constructor
  · intro today d
    simp only [isValidDate, dateLt, dateLe, decide_eq_true_eq]
    split_ifs with h1 h2 <;> simp_all <;> omega
  · with_unfolding_all rfl

/-- Witness for C8: the amended iff applied at today = 2026-10-12 and
d = 2024-03-01. -/
theorem c8_amended_witness :
    isValidDate todayRef ⟨2024, 3, 1⟩ = true :=
  (c8_amended.1 todayRef ⟨2024, 3, 1⟩).mpr ⟨by decide, by decide⟩

/-- C5: for the three detections "INDOMARET", "Jl. Sudirman 123" and
"11/01/2026 14:30" at line indices 0, 1, 2, the merchant extractor
(scoring every non-excluded candidate among the first topN detections
and returning the highest-scoring one, ties broken by confidence)
returns "INDOMARET". -/
theorem c5_merchant_indomaret :
    merchantExtract [c5det1, c5det2, c5det3] 5 = some ("INDOMARET".toList) := by
  with_unfolding_all rfl

/-- C9 (counterexample): when the Total extractor collaborator raises
(returns an error), the orchestrator body propagates the error instead
of returning a result whose merchant and date fields are populated —
extract_all has no exception handler. -/
theorem c9_counterexample :
    extractAllF todayRef (fun _ _ => Except.error ("boom".toList)) [c9det] [[c9det]] =
      Except.error ("boom".toList) := by
  with_unfolding_all rfl

/-- C9 (amended): for every input, a fault of the Total extractor
propagates out of the orchestrator unchanged; no partial record is
returned. -/
theorem c9_amended :
    ∀ (today : PyDate)
      (totalF : List OCRResult → List (List OCRResult) →
        Except (List Char) (Option (List Char) × Option ℚ × ℚ))
      (results : List OCRResult) (text_lines : List (List OCRResult)) (e : List Char),
      totalF results text_lines = Except.error e →
      extractAllF today totalF results text_lines = Except.error e := by
  intro today totalF results text_lines e h
  unfold extractAllF
  rw [h]

/-- Witness for C9: the amended theorem applied to the concrete
always-faulting collaborator on a one-detection input. -/
theorem c9_amended_witness :
    (fun (_ : List OCRResult) (_ : List (List OCRResult)) =>
        (Except.error ("x".toList) : Except (List Char) (Option (List Char) × Option ℚ × ℚ)))
      [c9det] [[c9det]] = Except.error ("x".toList) ∧
    extractAllF todayRef (fun _ _ => Except.error ("x".toList)) [c9det] [[c9det]] =
      Except.error ("x".toList) :=
  ⟨rfl, c9_amended todayRef _ _ _ _ rfl⟩

theorem sortLeft_ne_nil {l : List OCRResult} (h : l ≠ []) : sortLeft l ≠ [] := by
  unfold sortLeft
  intro hs
  apply h
  have hperm := List.perm_insertionSort leftLe l
  rw [hs] at hperm
  exact (List.Perm.eq_nil hperm.symm)

theorem sortLeft_sorted (l : List OCRResult) : List.Pairwise leftLe (sortLeft l) :=
  List.sorted_insertionSort leftLe l

theorem gtlAux_eq_claim (f : OCRResult) (tail rest : List OCRResult) :
    gtlAux 20 (f :: tail) (centerY f) rest = claimClusterAux f tail rest := by
  induction rest generalizing f tail with
  | nil => simp [gtlAux, claimClusterAux]
  | cons r rs ih =>
    unfold gtlAux claimClusterAux
    by_cases h : |centerY r - centerY f| ≤ 20
    · rw [if_pos h, if_pos h]
      have hx : (f :: tail) ++ [r] = f :: (tail ++ [r]) := by simp
      rw [hx]
      exact ih f (tail ++ [r])
    · rw [if_neg h, if_neg h]
      rw [ih r []]

theorem gtlAux_invariant : ∀ (rest cur : List OCRResult) (y : ℚ), cur ≠ [] →
    ∀ line ∈ gtlAux 20 cur y rest, line ≠ [] ∧ List.Pairwise leftLe line := by
  intro rest
  induction rest with
  | nil =>
    intro cur y hcur line hline
    unfold gtlAux at hline
    rw [if_neg hcur] at hline
    simp only [List.mem_singleton] at hline
    subst hline
    exact ⟨sortLeft_ne_nil hcur, sortLeft_sorted _⟩
  | cons r rs ih =>
    intro cur y hcur line hline
    unfold gtlAux at hline
    by_cases h : |centerY r - y| ≤ 20
    · rw [if_pos h] at hline
      exact ih (cur ++ [r]) y (by simp) line hline
    · rw [if_neg h] at hline
      rcases List.mem_cons.mp hline with rfl | hmem
      · exact ⟨sortLeft_ne_nil hcur, sortLeft_sorted _⟩
      · exact ih [r] (centerY r) (by simp) line hmem

/-- C6: line clustering at threshold 20 — the empty input yields the
empty output; for every input sorted by center_y the code equals the
claim-transcribed clustering (append exactly when center_y is within 20
of the center_y of the line's first-assigned member, else start a new
line, final open line flushed) and every produced line is non-empty and
sorted by left_x; detections at center_y 10 and 15 share a line while
center_y 50 starts a new one. -/
theorem c6_clustering :
    getTextLines 20 ([] : List OCRResult) = [] ∧
    (∀ res : List OCRResult, List.Pairwise (fun a b => centerY a ≤ centerY b) res →
        getTextLines 20 res = claimCluster res ∧
        ∀ line ∈ getTextLines 20 res, line ≠ [] ∧ List.Pairwise leftLe line) ∧
    getTextLines 20 [c6detA, c6detB, c6detC] = [[c6detA, c6detB], [c6detC]] := by
  refine ⟨rfl, ?_, by with_unfolding_all rfl⟩
  intro res _
  constructor
  · cases res with
    | nil => rfl
    | cons r rest => exact gtlAux_eq_claim r [] rest
  · cases res with
    | nil =>
      intro line h
      simp [getTextLines] at h
    | cons r rest =>
      intro line h
      exact gtlAux_invariant rest [r] (centerY r) (by simp) line h

/-- Witness for C6: the quantified part applied at the concrete sorted
three-detection input. -/
theorem c6_witness :
    List.Pairwise (fun a b => centerY a ≤ centerY b) [c6detA, c6detB, c6detC] ∧
    (getTextLines 20 [c6detA, c6detB, c6detC] = claimCluster [c6detA, c6detB, c6detC] ∧
     ∀ line ∈ getTextLines 20 [c6detA, c6detB, c6detC],
       line ≠ [] ∧ List.Pairwise leftLe line) :=
  ⟨by with_unfolding_all decide, c6_clustering.2.1 _ (by with_unfolding_all decide)⟩

theorem scanSameLine_conf : ∀ (l : List OCRResult) (res : List Char × ℚ × ℚ),
    scanSameLine l = some res → res.2.2 = mkRat 9 10 := by
  intro l
  induction l with
  | nil =>
    intro res h
    simp [scanSameLine] at h
  | cons r rest ih =>
    intro res h
    unfold scanSameLine at h
    rcases hcp : currencyParse r.text with ⟨v, raw⟩
    rw [hcp] at h
    cases v with
    | none => exact ih res h
    | some p =>
      dsimp only [] at h
      by_cases hc : 0 < p ∧ 100 ≤ p
      · rw [if_pos hc] at h
        cases h
        rfl
      · rw [if_neg hc] at h
        exact ih res h

theorem scanNextLine_conf : ∀ (l : List OCRResult) (res : List Char × ℚ × ℚ),
    scanNextLine l = some res → res.2.2 = mkRat 85 100 := by
  intro l
  induction l with
  | nil =>
    intro res h
    simp [scanNextLine] at h
  | cons r rest ih =>
    intro res h
    unfold scanNextLine at h
    rcases hcp : currencyParse r.text with ⟨v, raw⟩
    rw [hcp] at h
    cases v with
    | none => exact ih res h
    | some p =>
      dsimp only [] at h
      by_cases hc : 100 ≤ p
      · rw [if_pos hc] at h
        cases h
        rfl
      · rw [if_neg hc] at h
        exact ih res h

theorem kwBlock_conf {all : List (List OCRResult)} {line : List OCRResult}
    {res : List Char × ℚ × ℚ} (h : kwBlock all line = some res) :
    res.2.2 = mkRat 9 10 ∨ res.2.2 = mkRat 85 100 := by
  unfold kwBlock at h
  cases hs : scanSameLine line.reverse with
  | some r2 =>
    rw [hs] at h
    cases h
    exact Or.inl (scanSameLine_conf _ _ hs)
  | none =>
    rw [hs] at h
    dsimp only [] at h
    cases hn : (all[all.findIdx (fun l2 => l2 = line) + 1]?) with
    | some nl =>
      rw [hn] at h
      exact Or.inr (scanNextLine_conf _ _ h)
    | none =>
      rw [hn] at h
      exact absurd h (by simp)

theorem kwKeywordLoop_eq : ∀ (kws : List (List Char)) (blk : Option (List Char × ℚ × ℚ))
    (lt : List Char) (res : List Char × ℚ × ℚ),
    kwKeywordLoop blk lt kws = some res → blk = some res := by
  intro kws
  induction kws with
  | nil =>
    intro blk lt res h
    simp [kwKeywordLoop] at h
  | cons kw rest ih =>
    intro blk lt res h
    unfold kwKeywordLoop at h
    by_cases hc : containsSub kw lt = true
    · rw [if_pos hc] at h
      cases blk with
      | some b => exact h
      | none => exact ih none lt res h
    · rw [if_neg hc] at h
      exact ih blk lt res h

theorem kwLines_conf {all : List (List OCRResult)} :
    ∀ (rev : List (List OCRResult)) (res : List Char × ℚ × ℚ),
    kwLines all rev = some res → res.2.2 = mkRat 9 10 ∨ res.2.2 = mkRat 85 100 := by
  intro rev
  induction rev with
  | nil =>
    intro res h
    simp [kwLines] at h
  | cons line rest ih =>
    intro res h
    unfold kwLines at h
    by_cases hex : hasExcludeKeyword (lineText line) = true
    · rw [if_pos hex] at h
      exact ih res h
    · rw [if_neg hex] at h
      cases hk : kwKeywordLoop (kwBlock all line) (lineText line) TOTAL_KEYWORDS with
      | some r2 =>
        rw [hk] at h
        cases h
        exact kwBlock_conf (kwKeywordLoop_eq _ _ _ _ hk)
      | none =>
        rw [hk] at h
        exact ih res h

theorem extractByPosition_conf {results : List OCRResult}
    {text_lines : List (List OCRResult)} {res : List Char × ℚ × ℚ}
    (h : extractByPosition results text_lines = some res) : res.2.2 = mkRat 3 4 := by
  unfold extractByPosition at h
  by_cases he : text_lines = []
  · rw [if_pos he] at h
    exact absurd h (by simp)
  · rw [if_neg he] at h
    dsimp only [] at h
    cases hs : List.insertionSort valGe
        (positionAmounts (text_lines.drop (7 * text_lines.length / 10))) with
    | nil =>
      rw [hs] at h
      exact absurd h (by simp)
    | cons best tl =>
      rw [hs] at h
      cases h
      rfl

theorem extractMaxValue_conf {results : List OCRResult} {res : List Char × ℚ × ℚ}
    (h : extractMaxValue results = some res) : res.2.2 = mkRat 3 5 := by
  unfold extractMaxValue at h
  cases hs : List.insertionSort valGe (maxAmounts results) with
  | nil =>
    rw [hs] at h
    exact absurd h (by simp)
  | cons best tl =>
    rw [hs] at h
    cases h
    rfl

theorem totalExtract_conf_bound (results : List OCRResult)
    (text_lines : List (List OCRResult)) :
    0 ≤ (totalExtract results text_lines).2.2 ∧ (totalExtract results text_lines).2.2 ≤ 1 := by
  unfold totalExtract
  by_cases hres : results = []
  · rw [if_pos hres]
    constructor
    · with_unfolding_all decide
    · with_unfolding_all decide
  · rw [if_neg hres]
    cases hk : extractByKeyword text_lines with
    | some t =>
      rcases t with ⟨raw, v, c⟩
      have hc2 := kwLines_conf _ _ hk
      dsimp only [] at hc2 ⊢
      rcases hc2 with h | h <;> rw [h] <;> constructor <;> with_unfolding_all decide
    | none =>
      cases hp : extractByPosition results text_lines with
      | some t =>
        rcases t with ⟨raw, v, c⟩
        have hc2 := extractByPosition_conf hp
        dsimp only [] at hc2 ⊢
        rw [hc2]
        constructor <;> with_unfolding_all decide
      | none =>
        cases hm : extractMaxValue results with
        | some t =>
          rcases t with ⟨raw, v, c⟩
          have hc2 := extractMaxValue_conf hm
          dsimp only [] at hc2 ⊢
          rw [hc2]
          constructor <;> with_unfolding_all decide
        | none =>
          constructor
          · with_unfolding_all decide
          · with_unfolding_all decide

theorem sum_conf_bounds : ∀ (l : List OCRResult),
    (∀ r ∈ l, 0 ≤ r.confidence ∧ r.confidence ≤ 1) →
    0 ≤ (l.map (fun r => r.confidence)).sum ∧
      (l.map (fun r => r.confidence)).sum ≤ (l.length : ℚ) := by
  intro l
  induction l with
  | nil =>
    intro _
    simp
  | cons r rest ih =>
    intro h
    have hr := h r (by simp)
    have hrest := ih (fun x hx => h x (by simp [hx]))
    simp only [List.map_cons, List.sum_cons, List.length_cons]
    push_cast
    constructor
    · linarith [hrest.1, hr.1]
    · linarith [hrest.2, hr.2]

theorem ocrAvg_bounds (l : List OCRResult)
    (h : ∀ r ∈ l, 0 ≤ r.confidence ∧ r.confidence ≤ 1) :
    0 ≤ ocrAvgConfidence l ∧ ocrAvgConfidence l ≤ 1 := by
  unfold ocrAvgConfidence
  by_cases hl : l = []
  · rw [if_pos hl]
    norm_num
  · rw [if_neg hl]
    have hlen : (0 : ℚ) < (l.length : ℚ) := by
      have : 0 < l.length := List.length_pos.mpr hl
      exact_mod_cast this
    have hs := sum_conf_bounds l h
    constructor
    · exact div_nonneg hs.1 (le_of_lt hlen)
    · rw [div_le_one hlen]
      exact hs.2

theorem halfEvenInt_bounds {q : ℚ} {B : ℤ} (h0 : 0 ≤ q) (hB : q ≤ (B : ℚ)) :
    0 ≤ halfEvenInt q ∧ halfEvenInt q ≤ B := by
  have hs0 : (0 : ℚ) < mkRat 1 2 := by with_unfolding_all decide
  have hfl0 : 0 ≤ ⌊q⌋ := Int.floor_nonneg.mpr h0
  have hflB : ⌊q⌋ ≤ B := by
    have hmono := Int.floor_le_floor hB
    simpa using hmono
  have hup : ∀ hlt : mkRat 1 2 ≤ q - (⌊q⌋ : ℚ), ⌊q⌋ < B := by
    intro hlt
    rcases lt_or_eq_of_le hflB with hx | hx
    · exact hx
    · exfalso
      have hq : (⌊q⌋ : ℚ) = (B : ℚ) := by exact_mod_cast hx
      have : q - (⌊q⌋ : ℚ) ≤ 0 := by
        rw [hq]
        linarith
      linarith
  unfold halfEvenInt
  simp only []
  split_ifs with h1 h2 h3
  · exact ⟨hfl0, hflB⟩
  · have := hup (le_of_lt h2)
    omega
  · exact ⟨hfl0, hflB⟩
  · have heq : mkRat 1 2 ≤ q - (⌊q⌋ : ℚ) := by
      push_neg at h1
      exact h1
    have := hup heq
    omega

theorem pyRound3_bounds {q : ℚ} (h0 : 0 ≤ q) (h1 : q ≤ 1) :
    0 ≤ pyRound3 q ∧ pyRound3 q ≤ 1 := by
  unfold pyRound3
  have hq0 : 0 ≤ q * 1000 := by
    have : (0 : ℚ) ≤ 1000 := by norm_num
    exact mul_nonneg h0 this
  have hq1 : q * 1000 ≤ ((1000 : ℤ) : ℚ) := by
    push_cast
    linarith
  have hh := halfEvenInt_bounds hq0 hq1
  rw [Rat.mkRat_eq_div]
  constructor
  · apply div_nonneg _ (by norm_num)
    exact_mod_cast hh.1
  · rw [div_le_one (by norm_num)]
    have : ((halfEvenInt (q * 1000) : ℤ) : ℚ) ≤ ((1000 : ℤ) : ℚ) := by
      exact_mod_cast hh.2
    simpa using this

/-- C3: for every detection list with confidences in [0, 1], the
orchestrator result has confidence_score = round(0.3 * mean(detection
confidences) + 0.7 * totalExtractorConfidence, 3), which lies in
[0, 1]; and for the empty detection list every field of the result is
absent and confidence_score is exactly 0, as a defined non-error
outcome. -/
theorem c3_orchestrator :
    (∀ (today : PyDate) (results : List OCRResult) (text_lines : List (List OCRResult)),
        (∀ r ∈ results, 0 ≤ r.confidence ∧ r.confidence ≤ 1) →
        ((extractAll today results text_lines).confidence_score =
            pyRound3 (mkRat 3 10 * ocrAvgConfidence results +
              mkRat 7 10 * (totalExtract results text_lines).2.2) ∧
          0 ≤ (extractAll today results text_lines).confidence_score ∧
          (extractAll today results text_lines).confidence_score ≤ 1)) ∧
    (∀ (today : PyDate) (text_lines : List (List OCRResult)),
        extractAll today [] text_lines = ⟨none, none, none, none, none, 0⟩) := by
  constructor
  · intro today results text_lines hconf
    have hscore : (extractAll today results text_lines).confidence_score =
        pyRound3 (ocrAvgConfidence results * mkRat 3 10 +
          (totalExtract results text_lines).2.2 * mkRat 7 10) := rfl
    have hcomm : ocrAvgConfidence results * mkRat 3 10 +
        (totalExtract results text_lines).2.2 * mkRat 7 10 =
        mkRat 3 10 * ocrAvgConfidence results +
          mkRat 7 10 * (totalExtract results text_lines).2.2 := by
      ring
    have havg := ocrAvg_bounds results hconf
    have htc := totalExtract_conf_bound results text_lines
    have h3a : (0 : ℚ) ≤ mkRat 3 10 := by with_unfolding_all decide
    have h7a : (0 : ℚ) ≤ mkRat 7 10 := by with_unfolding_all decide
    have hsum : mkRat 3 10 + mkRat 7 10 = (1 : ℚ) := by with_unfolding_all decide
    have harg0 : 0 ≤ ocrAvgConfidence results * mkRat 3 10 +
        (totalExtract results text_lines).2.2 * mkRat 7 10 := by
      have := mul_nonneg havg.1 h3a
      have := mul_nonneg htc.1 h7a
      linarith
    have harg1 : ocrAvgConfidence results * mkRat 3 10 +
        (totalExtract results text_lines).2.2 * mkRat 7 10 ≤ 1 := by
      have hle3 : ocrAvgConfidence results * mkRat 3 10 ≤ mkRat 3 10 :=
        mul_le_of_le_one_left h3a havg.2
      have hle7 : (totalExtract results text_lines).2.2 * mkRat 7 10 ≤ mkRat 7 10 := by
        apply mul_le_of_le_one_left h7a htc.2
      linarith
    have hbounds := pyRound3_bounds harg0 harg1
    refine ⟨by rw [hscore, hcomm], ?_, ?_⟩
    · rw [hscore]
      exact hbounds.1
    · rw [hscore]
      exact hbounds.2
  · intro today text_lines
    have h1 : merchantExtract [] 5 = none := by with_unfolding_all rfl
    have h2 : dateExtract today [] = (none, none) := by with_unfolding_all rfl
    have h3 : pyRound3 (0 * mkRat 3 10 + 0 * mkRat 7 10) = 0 := by with_unfolding_all rfl
    have h0 : extractAll today [] text_lines =
        ⟨merchantExtract [] 5, (dateExtract today []).1, (dateExtract today []).2, none, none,
          pyRound3 (0 * mkRat 3 10 + 0 * mkRat 7 10)⟩ := by with_unfolding_all rfl
    rw [h0, h1, h2, h3]

/-- Witness for C3: the quantified part applied at a concrete
three-detection input with confidences in [0, 1]. -/
theorem c3_orchestrator_witness :
    (∀ r ∈ [c5det1, c5det2, c5det3], 0 ≤ r.confidence ∧ r.confidence ≤ 1) ∧
    ((extractAll todayRef [c5det1, c5det2, c5det3]
        (getTextLines 20 [c5det1, c5det2, c5det3])).confidence_score =
      pyRound3 (mkRat 3 10 * ocrAvgConfidence [c5det1, c5det2, c5det3] +
        mkRat 7 10 * (totalExtract [c5det1, c5det2, c5det3]
          (getTextLines 20 [c5det1, c5det2, c5det3])).2.2) ∧
      0 ≤ (extractAll todayRef [c5det1, c5det2, c5det3]
        (getTextLines 20 [c5det1, c5det2, c5det3])).confidence_score ∧
      (extractAll todayRef [c5det1, c5det2, c5det3]
        (getTextLines 20 [c5det1, c5det2, c5det3])).confidence_score ≤ 1) :=
  ⟨by with_unfolding_all decide,
   c3_orchestrator.1 todayRef [c5det1, c5det2, c5det3]
     (getTextLines 20 [c5det1, c5det2, c5det3]) (by with_unfolding_all decide)⟩

theorem scanSameLine_eq_findSome : ∀ l : List OCRResult,
    scanSameLine l = l.findSome? (fun r =>
      match currencyParse r.text with
      | (some p, raw) => if 100 ≤ p then some (raw, p, mkRat 9 10) else none
      | (none, _) => none) := by
  intro l
  induction l with
  | nil => rfl
  | cons r rest ih =>
    rw [List.findSome?_cons]
    unfold scanSameLine
    rcases hcp : currencyParse r.text with ⟨v, raw⟩
    cases v with
    | none => simp [hcp, ih]
    | some p =>
      by_cases hc : 100 ≤ p
      · have hc2 : 0 < p ∧ 100 ≤ p := ⟨by linarith, hc⟩
        simp [hcp, hc, hc2]
      · have hc2 : ¬(0 < p ∧ 100 ≤ p) := fun hx => hc hx.2
        simp [hcp, hc, hc2, ih]

theorem scanNextLine_eq_findSome : ∀ l : List OCRResult,
    scanNextLine l = l.findSome? (fun r =>
      match currencyParse r.text with
      | (some p, raw) => if 100 ≤ p then some (raw, p, mkRat 85 100) else none
      | (none, _) => none) := by
  intro l
  induction l with
  | nil => rfl
  | cons r rest ih =>
    rw [List.findSome?_cons]
    unfold scanNextLine
    rcases hcp : currencyParse r.text with ⟨v, raw⟩
    cases v with
    | none => simp [hcp, ih]
    | some p =>
      by_cases hc : 100 ≤ p
      · simp [hcp, hc]
      · simp [hcp, hc, ih]

theorem kwKeywordLoop_eq_any : ∀ (kws : List (List Char))
    (blk : Option (List Char × ℚ × ℚ)) (lt : List Char),
    kwKeywordLoop blk lt kws =
      if kws.any (fun kw => containsSub kw lt) then blk else none := by
  intro kws
  induction kws with
  | nil =>
    intro blk lt
    simp [kwKeywordLoop]
  | cons kw rest ih =>
    intro blk lt
    unfold kwKeywordLoop
    by_cases hc : containsSub kw lt = true
    · rw [if_pos hc]
      cases blk with
      | some b => simp [hc]
      | none => simp [hc, ih]
    · rw [if_neg hc]
      have hcf : containsSub kw lt = false := by
        cases h : containsSub kw lt
        · rfl
        · exact absurd h hc
      simp [hcf, ih]

theorem findIdx_of_nodup {α : Type} [DecidableEq α] :
    ∀ (l : List α) (i : ℕ) (x : α), l.Nodup → l[i]? = some x →
      l.findIdx (fun y => y = x) = i := by
  intro l
  induction l with
  | nil =>
    intro i x _ h
    simp at h
  | cons a as ih =>
    intro i x hnd h
    cases i with
    | zero =>
      simp only [List.getElem?_cons_zero, Option.some.injEq] at h
      subst h
      simp [List.findIdx_cons]
    | succ j =>
      simp only [List.getElem?_cons_succ] at h
      have hx : x ∈ as := by
        have := List.getElem?_eq_some_iff.mp h
        rcases this with ⟨hj, hget⟩
        exact hget ▸ List.getElem_mem hj
      have hax : ¬(a = x) := fun he => (List.nodup_cons.mp hnd).1 (he ▸ hx)
      rw [List.findIdx_cons]
      have hd : (decide (a = x)) = false := by simp [hax]
      rw [hd]
      simp only [cond_false]
      rw [ih j x (List.nodup_cons.mp hnd).2 h]

theorem kwLines_eq_claim (all : List (List OCRResult)) (hnd : all.Nodup) :
    ∀ m : ℕ, m ≤ all.length →
      kwLines all ((all.take m).reverse) = kwClaimAux all m ((all.take m).reverse) := by
  intro m
  induction m with
  | zero =>
    intro _
    simp [kwLines, kwClaimAux]
  | succ k ih =>
    intro hm
    have hk : k < all.length := by omega
    have hih := ih (le_of_lt hk)
    have htake : (all.take (k + 1)).reverse = all[k] :: (all.take k).reverse := by
      rw [List.take_succ]
      rw [List.getElem?_eq_getElem hk]
      simp
    rw [htake]
    have hidx : all.findIdx (fun l2 => l2 = all[k]) = k :=
      findIdx_of_nodup all k (all[k]) hnd (List.getElem?_eq_getElem hk)
    have hsame : kwClaimSameLine all[k] = scanSameLine (all[k]).reverse := by
      unfold kwClaimSameLine
      rw [scanSameLine_eq_findSome]
    simp only [kwLines, kwClaimAux, Nat.add_sub_cancel]
    by_cases hex : hasExcludeKeyword (lineText all[k]) = true
    · rw [if_pos hex, if_pos hex]
      exact hih
    · rw [if_neg hex, if_neg hex]
      have hany : TOTAL_KEYWORDS.any (fun kw => containsSub kw (lineText all[k])) =
          hasTotalKeyword (lineText all[k]) := rfl
      rw [kwKeywordLoop_eq_any, hany]
      by_cases htk : hasTotalKeyword (lineText all[k]) = true
      · rw [if_pos htk, if_pos htk]
        unfold kwBlock
        rw [hsame, hidx]
        cases hs : scanSameLine (all[k]).reverse with
        | some r => rfl
        | none =>
          simp only []
          cases hnext : all[k + 1]? with
          | some nl =>
            have hnl : kwClaimNextLine nl = scanNextLine nl := by
              unfold kwClaimNextLine
              rw [scanNextLine_eq_findSome]
            dsimp only []
            rw [hnl]
            cases hval : scanNextLine nl with
            | some r => rfl
            | none => exact hih
          | none => exact hih
      · have htkf : hasTotalKeyword (lineText all[k]) = false := by
          cases h : hasTotalKeyword (lineText all[k])
          · rfl
          · exact absurd h htk
        rw [htkf]
        simp only [Bool.false_eq_true, if_false]
        exact hih

/-- C2: the keyword strategy equals the claim-transcribed scan: lines
bottom to top, lines containing an exclusion keyword skipped; on a line
containing a total keyword the detections are scanned right to left and
the first currency value at least 100 is returned at confidence 0.9,
else a currency value at least 100 on the immediately following line is
returned at 0.85, else the scan continues upward.  The Nodup hypothesis
models Python object identity: text_lines.index(line) finds the line's
own position because the clustering partitions distinct objects. -/
theorem c2_keyword_strategy (text_lines : List (List OCRResult))
    (hnd : text_lines.Nodup) : extractByKeyword text_lines = keywordClaim text_lines := by
  have h := kwLines_eq_claim text_lines hnd text_lines.length le_rfl
  rw [List.take_length] at h
  exact h

/-- Witness for C2: the equivalence applied at a concrete one-line
input "Total  Rp 150.000". -/
theorem c2_keyword_strategy_witness :
    c2lines.Nodup ∧ extractByKeyword c2lines = keywordClaim c2lines :=
  ⟨by decide, c2_keyword_strategy c2lines (by decide)⟩
